import Mathlib

/-!
Verification of a Mini-LISP interpreter (single Python source file).

The shallow embedding below translates the interpreter's pipeline:
tokenizer, values, chained environments (as an indexed store of frames,
since Python environments are shared mutable objects referenced by
closures), and the fuel-indexed evaluator.  Machine output is modelled
as the ordered list of printed lines; the process exit status is
modelled explicitly (the interpreter always exits with status 0).
-/

/-! ## Tokenizer -/

def isWhitespaceCh (c : Char) : Bool :=
  c == ' ' || c == '\t' || c == '\n' || c == '\r'

def isParenCh (c : Char) : Bool := c == '(' || c == ')'

def isOpCh (c : Char) : Bool :=
  c == '+' || c == '*' || c == '/' || c == '<' || c == '>' || c == '='

def isIdCh (c : Char) : Bool := c.isAlphanum || c == '-'

/-- `tokenize`, step-indexed: one unit of fuel per iteration of the
`while i < len(code)` loop, over the remaining characters.  `none` means
the given number of iterations did not finish the input.  The branches
follow the source's rule order exactly. -/
def tokenizeAux : Nat → List Char → Option (List String)
  | 0, _ => none
  | _ + 1, [] => some []
  | fuel + 1, c :: cs =>
    if isWhitespaceCh c then tokenizeAux fuel cs
    else if c == ';' then tokenizeAux fuel (cs.dropWhile fun d => !(d == '\n'))
    else if isParenCh c then (tokenizeAux fuel cs).map (fun ts => c.toString :: ts)
    else if c == '#' then
      match cs with
      | d :: cs' =>
        if d == 't' || d == 'f' then
          (tokenizeAux fuel cs').map (fun ts => String.mk [c, d] :: ts)
        else tokenizeAux fuel cs
      | [] => tokenizeAux fuel cs
    else if c == '-' then
      match cs with
      | d :: _ =>
        if d.isDigit then
          (tokenizeAux fuel (cs.dropWhile Char.isDigit)).map
            (fun ts => String.mk ('-' :: cs.takeWhile Char.isDigit) :: ts)
        else (tokenizeAux fuel cs).map (fun ts => "-" :: ts)
      | [] => (tokenizeAux fuel cs).map (fun ts => "-" :: ts)
    else if c.isDigit then
      (tokenizeAux fuel ((c :: cs).dropWhile Char.isDigit)).map
        (fun ts => String.mk ((c :: cs).takeWhile Char.isDigit) :: ts)
    else if c.isAlpha || isOpCh c then
      if isOpCh c && (match cs with
                      | [] => true
                      | d :: _ => isWhitespaceCh d || isParenCh d) then
        (tokenizeAux fuel cs).map (fun ts => c.toString :: ts)
      else
        (tokenizeAux fuel ((c :: cs).dropWhile isIdCh)).map
          (fun ts => String.mk ((c :: cs).takeWhile isIdCh) :: ts)
    else tokenizeAux fuel cs

/-- Abstract syntax, as produced by `Parser` in the source: tuples tagged
with the form name.  `+`, `*`, `=`, `and`, `or` carry operand lists; the
remaining arithmetic/comparison forms always carry exactly two operands. -/
inductive Expr where
  | intLit : Int → Expr
  | boolLit : Bool → Expr
  | var : String → Expr
  | printNum : Expr → Expr
  | printBool : Expr → Expr
  | define : String → Expr → Expr
  | fn : List String → Expr → Expr
  | funBody : List Expr → Expr → Expr
  | ite : Expr → Expr → Expr → Expr
  | add : List Expr → Expr
  | sub : Expr → Expr → Expr
  | mul : List Expr → Expr
  | div : Expr → Expr → Expr
  | mod : Expr → Expr → Expr
  | gt : Expr → Expr → Expr
  | lt : Expr → Expr → Expr
  | eq : List Expr → Expr
  | and : List Expr → Expr
  | or : List Expr → Expr
  | not : Expr → Expr
  | call : Expr → List Expr → Expr

/-- Runtime values: Python ints, Python bools, and `Function` objects
(parameter list, body, captured environment).  The captured environment is
a reference into the store of environment frames, mirroring Python object
identity.  The two numeric-looking kinds are distinct constructors. -/
inductive Value where
  | int : Int → Value
  | bool : Bool → Value
  | closure : List String → Expr → Nat → Value

/-- The `Environment` class: a name→value table plus an optional parent
reference (an index into the store). -/
structure Environment where
  vars : List (String × Value)
  parent : Option Nat

/-- All environment frames ever created, addressed by index; Python's
heap of `Environment` objects. -/
abbrev Store := List Environment

/-- Evaluation state: the environment store and the lines printed so far. -/
structure EvalSt where
  store : Store
  out : List String

/-- Result of evaluating one expression: a value, the `type_error` exit,
a silently-swallowed runtime exception, or fuel exhaustion (Python's
recursion limit, a `RecursionError`, also silently swallowed). -/
inductive Outcome where
  | ok : Value → Outcome
  | typeErr : Outcome
  | rtErr : Outcome
  | fuelOut : Outcome

def typeErrorMsg : String := "Type error!"

def pushOut (st : EvalSt) (s : String) : EvalSt := ⟨st.store, st.out ++ [s]⟩

/-- `type_error`: prints the fixed diagnostic and exits the process with
status 0 (modelled as the `typeErr` outcome, which no evaluation context
recovers from). -/
def type_error (st : EvalSt) : Outcome × EvalSt := (.typeErr, pushOut st typeErrorMsg)

/-- The `TYPE_CHECKING` flag in the source, fixed to `True`. -/
def TYPE_CHECKING : Bool := true

/-- `check_number`: a Python `bool` is rejected first (it is an `int`
subclass), then anything that is not an `int` is rejected. -/
def check_number (v : Value) : Bool :=
  match v with
  | .bool _ => false
  | .int _ => true
  | .closure _ _ _ => false

/-- `check_boolean`: only a Python `bool` passes. -/
def check_boolean (v : Value) : Bool :=
  match v with
  | .bool _ => true
  | _ => false

/-- Python `==` on the values that reach the `=` form (integers after
`check_number`). -/
def valueEqb : Value → Value → Bool
  | .int a, .int b => a == b
  | .bool a, .bool b => a == b
  | _, _ => false

/-- Exception propagation: continue with the value, or return the failure
unchanged. -/
def andThen (r : Outcome × EvalSt) (k : Value → EvalSt → Outcome × EvalSt) :
    Outcome × EvalSt :=
  match r with
  | (.ok v, st) => k v st
  | r => r

/-- `Environment.define`: raises if the name is already bound in this very
frame; ancestors are not consulted. -/
def Environment.define (f : Environment) (n : String) (v : Value) :
    Option Environment :=
  if f.vars.any (fun p => p.1 == n) then none
  else some ⟨f.vars ++ [(n, v)], f.parent⟩

/-- `define` on the frame at index `env` of the store. -/
def storeDefine (s : Store) (env : Nat) (n : String) (v : Value) : Option Store :=
  match s.get? env with
  | none => none
  | some f =>
    match f.define n v with
    | none => none
    | some f' => some (s.set env f')

/-- `Environment.lookup`: innermost frame first, then the parent chain.
The chain in any reachable store is acyclic (a parent always has a smaller
index), so fuel `s.length` suffices. -/
def lookupEnv (s : Store) : Nat → Nat → String → Option Value
  | 0, _, _ => none
  | fuel + 1, env, n =>
    match s.get? env with
    | none => none
    | some f =>
      match f.vars.find? (fun p => p.1 == n) with
      | some p => some p.2
      | none =>
        match f.parent with
        | some par => lookupEnv s fuel par n
        | none => none

/-- The tail of the `=` form: check every collected value with
`check_number`, then compare all against the first (vacuously true when
empty, which the parser never produces). -/
def eqResult (vals : List Value) (st1 : EvalSt) : Outcome × EvalSt :=
  if vals.all check_number then
    match vals with
    | [] => (.ok (.bool true), st1)
    | v0 :: _ => (.ok (.bool (vals.all fun v => valueEqb v v0)), st1)
  else type_error st1

/-- Binding each parameter to its argument, in order, in frame `env`. -/
def bindParams : Store → Nat → List String → List Value → Option Store
  | s, _, [], [] => some s
  | s, env, p :: ps, v :: vs =>
    match storeDefine s env p v with
    | some s' => bindParams s' env ps vs
    | none => none
  | _, _, _, _ => none

mutual

/-- `evaluate`, fuel-indexed: fuel bounds the depth of the Python call
stack (exhaustion models `RecursionError`). -/
def evaluate : Nat → Expr → Nat → EvalSt → Outcome × EvalSt
  | 0, _, _, st => (.fuelOut, st)
  | fuel + 1, e, env, st =>
    match e with
    | .intLit n => (.ok (.int n), st)
    | .boolLit b => (.ok (.bool b), st)
    | .var x =>
      match lookupEnv st.store st.store.length env x with
      | some v => (.ok v, st)
      | none => (.rtErr, st)
    | .printNum e1 =>
      andThen (evaluate fuel e1 env st) fun v st1 =>
        match v with
        | .int n => (.ok (.int n), pushOut st1 (toString n))
        | _ => type_error st1
    | .printBool e1 =>
      andThen (evaluate fuel e1 env st) fun v st1 =>
        match v with
        | .bool b => (.ok (.bool b), pushOut st1 (if b then "#t" else "#f"))
        | _ => type_error st1
    | .define x e1 =>
      andThen (evaluate fuel e1 env st) fun v st1 =>
        match storeDefine st1.store env x v with
        | some s => (.ok v, ⟨s, st1.out⟩)
        | none => (.rtErr, st1)
    | .fn ps body => (.ok (.closure ps body env), st)
    | .funBody defs res =>
      match evalSeq fuel defs env st with
      | (Sum.inr _, st1) => evaluate fuel res env st1
      | (Sum.inl o, st1) => (o, st1)
    | .ite t thn els =>
      andThen (evaluate fuel t env st) fun v st1 =>
        match v with
        | .bool bv => evaluate fuel (if bv then thn else els) env st1
        | _ => type_error st1
    | .add es => evalAdd fuel es 0 env st
    | .sub a b =>
      andThen (evaluate fuel a env st) fun v1 st1 =>
        andThen (evaluate fuel b env st1) fun v2 st2 =>
          match v1, v2 with
          | .int m, .int n => (.ok (.int (m - n)), st2)
          | _, _ => type_error st2
    | .mul es => evalMul fuel es 1 env st
    | .div a b =>
      andThen (evaluate fuel a env st) fun v1 st1 =>
        andThen (evaluate fuel b env st1) fun v2 st2 =>
          match v1, v2 with
          | .int m, .int n =>
            if n == 0 then (.rtErr, st2) else (.ok (.int (Int.fdiv m n)), st2)
          | _, _ => type_error st2
    | .mod a b =>
      andThen (evaluate fuel a env st) fun v1 st1 =>
        andThen (evaluate fuel b env st1) fun v2 st2 =>
          match v1, v2 with
          | .int m, .int n =>
            if n == 0 then (.rtErr, st2) else (.ok (.int (Int.fmod m n)), st2)
          | _, _ => type_error st2
    | .gt a b =>
      andThen (evaluate fuel a env st) fun v1 st1 =>
        andThen (evaluate fuel b env st1) fun v2 st2 =>
          match v1, v2 with
          | .int m, .int n => (.ok (.bool (decide (n < m))), st2)
          | _, _ => type_error st2
    | .lt a b =>
      andThen (evaluate fuel a env st) fun v1 st1 =>
        andThen (evaluate fuel b env st1) fun v2 st2 =>
          match v1, v2 with
          | .int m, .int n => (.ok (.bool (decide (m < n))), st2)
          | _, _ => type_error st2
    | .eq es =>
      match evalSeq fuel es env st with
      | (Sum.inr vals, st1) => eqResult vals st1
      | (Sum.inl o, st1) => (o, st1)
    | .and es => evalAnd fuel es env st
    | .or es => evalOr fuel es env st
    | .not e1 =>
      andThen (evaluate fuel e1 env st) fun v st1 =>
        match v with
        | .bool b => (.ok (.bool (!b)), st1)
        | _ => type_error st1
    | .call fe args =>
      andThen (evaluate fuel fe env st) fun v st1 =>
        match v with
        | .closure ps body cenv =>
          match evalSeq fuel args env st1 with
          | (Sum.inr vals, st2) => applyClosure fuel ps body cenv vals st2
          | (Sum.inl o, st2) => (o, st2)
        | _ => (.rtErr, st1)
termination_by structural fuel _ _ _ => fuel

/-- The `+` loop: running sum, each operand checked as it is reached. -/
def evalAdd : Nat → List Expr → Int → Nat → EvalSt → Outcome × EvalSt
  | 0, _, _, _, st => (.fuelOut, st)
  | _ + 1, [], acc, _, st => (.ok (.int acc), st)
  | fuel + 1, e :: es, acc, env, st =>
    match evaluate fuel e env st with
    | (.ok (.int n), st1) => evalAdd fuel es (acc + n) env st1
    | (.ok _, st1) => type_error st1
    | r => r
termination_by structural fuel _ _ _ _ => fuel

/-- The `*` loop: running product. -/
def evalMul : Nat → List Expr → Int → Nat → EvalSt → Outcome × EvalSt
  | 0, _, _, _, st => (.fuelOut, st)
  | _ + 1, [], acc, _, st => (.ok (.int acc), st)
  | fuel + 1, e :: es, acc, env, st =>
    match evaluate fuel e env st with
    | (.ok (.int n), st1) => evalMul fuel es (acc * n) env st1
    | (.ok _, st1) => type_error st1
    | r => r
termination_by structural fuel _ _ _ _ => fuel

/-- A Python list comprehension evaluating expressions left to right,
aborting on the first exception. -/
def evalSeq : Nat → List Expr → Nat → EvalSt → (Outcome ⊕ List Value) × EvalSt
  | 0, _, _, st => (Sum.inl .fuelOut, st)
  | _ + 1, [], _, st => (Sum.inr [], st)
  | fuel + 1, e :: es, env, st =>
    match evaluate fuel e env st with
    | (.ok v, st1) =>
      match evalSeq fuel es env st1 with
      | (Sum.inr vs, st2) => (Sum.inr (v :: vs), st2)
      | r => r
    | (o, st1) => (Sum.inl o, st1)
termination_by structural fuel _ _ _ => fuel

/-- The `and` loop: each operand checked as a boolean when reached;
returns false at the first false operand without touching the rest. -/
def evalAnd : Nat → List Expr → Nat → EvalSt → Outcome × EvalSt
  | 0, _, _, st => (.fuelOut, st)
  | _ + 1, [], _, st => (.ok (.bool true), st)
  | fuel + 1, e :: es, env, st =>
    match evaluate fuel e env st with
    | (.ok (.bool false), st1) => (.ok (.bool false), st1)
    | (.ok (.bool true), st1) => evalAnd fuel es env st1
    | (.ok _, st1) => type_error st1
    | r => r
termination_by structural fuel _ _ _ => fuel

/-- The `or` loop: returns true at the first true operand. -/
def evalOr : Nat → List Expr → Nat → EvalSt → Outcome × EvalSt
  | 0, _, _, st => (.fuelOut, st)
  | _ + 1, [], _, st => (.ok (.bool false), st)
  | fuel + 1, e :: es, env, st =>
    match evaluate fuel e env st with
    | (.ok (.bool true), st1) => (.ok (.bool true), st1)
    | (.ok (.bool false), st1) => evalOr fuel es env st1
    | (.ok _, st1) => type_error st1
    | r => r
termination_by structural fuel _ _ _ => fuel

/-- `Function.call`: arity check, a fresh frame parented to the closure's
captured environment, parameters bound in order, then the body evaluated
in the fresh frame. -/
def applyClosure : Nat → List String → Expr → Nat → List Value → EvalSt →
    Outcome × EvalSt
  | 0, _, _, _, _, st => (.fuelOut, st)
  | fuel + 1, params, body, cenv, args, st =>
    if args.length ≠ params.length then (.rtErr, st)
    else
      match bindParams (st.store ++ [⟨[], some cenv⟩]) st.store.length params args with
      | some s2 => evaluate fuel body st.store.length ⟨s2, st.out⟩
      | none => (.rtErr, st)
termination_by structural fuel _ _ _ _ _ => fuel

end

/-- How one run of `main` ended: all statements evaluated; the
`type_error` exit; or a silently swallowed exception. -/
inductive RunResult where
  | completed : RunResult
  | typeHalted : RunResult
  | silentHalted : RunResult
deriving DecidableEq

/-- The top-level statement loop in `main`: each statement against the
shared global environment; the first failure of any kind stops the run. -/
def runStmts : Nat → List Expr → Nat → EvalSt → RunResult × EvalSt
  | _, [], _, st => (.completed, st)
  | fuel, e :: es, env, st =>
    match evaluate fuel e env st with
    | (.ok _, st1) => runStmts fuel es env st1
    | (.typeErr, st1) => (.typeHalted, st1)
    | (_, st1) => (.silentHalted, st1)

/-- The state at `main` entry: one global frame, nothing printed. -/
def initState : EvalSt := ⟨[⟨[], none⟩], []⟩

def runProgram (fuel : Nat) (prog : List Expr) : RunResult × EvalSt :=
  runStmts fuel prog 0 initState

/-- Every path through `main` ends with process status 0: `type_error`
calls `sys.exit(0)` and every other exception is caught and discarded. -/
def exitCode (_ : RunResult) : Nat := 0

/-! ## Predicates used by the theorems -/

/-- A type-error result's output ends with the fixed diagnostic line. -/
def TE (r : Outcome × EvalSt) : Prop :=
  r.1 = .typeErr → ∃ pre, r.2.out = pre ++ [typeErrorMsg]

/-- `TE` for the list-evaluation helper. -/
def TES (r : (Outcome ⊕ List Value) × EvalSt) : Prop :=
  r.1 = Sum.inl .typeErr → ∃ pre, r.2.out = pre ++ [typeErrorMsg]

mutual

/-- The expression contains no `print-num` and no `print-bool` form,
anywhere (including inside closure bodies). -/
def noPrint : Expr → Bool
  | .intLit _ => true
  | .boolLit _ => true
  | .var _ => true
  | .printNum _ => false
  | .printBool _ => false
  | .define _ e => noPrint e
  | .fn _ body => noPrint body
  | .funBody defs res => noPrintList defs && noPrint res
  | .ite t thn els => noPrint t && noPrint thn && noPrint els
  | .add es => noPrintList es
  | .sub a b => noPrint a && noPrint b
  | .mul es => noPrintList es
  | .div a b => noPrint a && noPrint b
  | .mod a b => noPrint a && noPrint b
  | .gt a b => noPrint a && noPrint b
  | .lt a b => noPrint a && noPrint b
  | .eq es => noPrintList es
  | .and es => noPrintList es
  | .or es => noPrintList es
  | .not e => noPrint e
  | .call f as => noPrint f && noPrintList as

/-- `noPrint` for every expression of a list. -/
def noPrintList : List Expr → Bool
  | [] => true
  | e :: es => noPrint e && noPrintList es

end

/-- A value free of print forms (a closure body must be print-free). -/
def valueNP : Value → Bool
  | .int _ => true
  | .bool _ => true
  | .closure _ body _ => noPrint body

/-- Every value bound in the frame is print-free. -/
def frameNP (f : Environment) : Bool := f.vars.all fun p => valueNP p.2

/-- Every frame of the store is print-free. -/
def storeNP (s : Store) : Bool := s.all frameNP

/-- Invariant of evaluating a print-free expression from state `st`: the
store stays print-free, a successful value is print-free and nothing was
printed, a type error printed exactly the one diagnostic, and any other
failure printed nothing. -/
def NPres (st : EvalSt) (r : Outcome × EvalSt) : Prop :=
  storeNP r.2.store = true ∧
  match r.1 with
  | .ok v => valueNP v = true ∧ r.2.out = st.out
  | .typeErr => r.2.out = st.out ++ [typeErrorMsg]
  | _ => r.2.out = st.out

/-- `NPres` for the list-evaluation helper. -/
def NPseq (st : EvalSt) (r : (Outcome ⊕ List Value) × EvalSt) : Prop :=
  storeNP r.2.store = true ∧
  match r.1 with
  | Sum.inr vals => vals.all valueNP = true ∧ r.2.out = st.out
  | Sum.inl (.ok _) => False
  | Sum.inl .typeErr => r.2.out = st.out ++ [typeErrorMsg]
  | Sum.inl _ => r.2.out = st.out

/-! ## Concrete example programs from the specification -/

/-- `(define x 5) (define x 6)` — same-scope redefinition. -/
def redefineProg : List Expr := [.define "x" (.intLit 5), .define "x" (.intLit 6)]

/-- `(define x 5) (define x 6) (print-num x)` — a later statement after the
failing one. -/
def redefineProg3 : List Expr :=
  [.define "x" (.intLit 5), .define "x" (.intLit 6), .printNum (.var "x")]

/-- `(define add1 (fun (x) (+ x 1))) (print-num (add1 2))`. -/
def add1Prog : List Expr :=
  [.define "add1" (.fn ["x"] (.add [.var "x", .intLit 1])),
   .printNum (.call (.var "add1") [.intLit 2])]

/-- `(define y 1) (define f (fun () y)) (define g (fun (y) (f)))
`(print-num (g 99))` — at the call site of `f` inside `g`, the name `y` is
bound to 99, but `f` must see its definition-site binding 1. -/
def lexicalProg : List Expr :=
  [.define "y" (.intLit 1),
   .define "f" (.fn [] (.var "y")),
   .define "g" (.fn ["y"] (.call (.var "f") [])),
   .printNum (.call (.var "g") [.intLit 99])]

/-- `(print-bool (and #t #f))`. -/
def andPrintProg : List Expr := [.printBool (.and [.boolLit true, .boolLit false])]

/-- `(and #t 5)`. -/
def andTypeErrProg : List Expr := [.and [.boolLit true, .intLit 5]]

/-- `((1 (print-num 99)))` — a call whose callee is not a closure and whose
argument would print if it were ever evaluated. -/
def nonClosureCallProg : List Expr := [.call (.intLit 1) [.printNum (.intLit 99)]]

/-- `(+ 1 #t)` — a well-formed program without print forms. -/
def addBoolProg : List Expr := [.add [.intLit 1, .boolLit true]]

/-! ## Type-error diagnostic invariant -/

theorem te_ok (v : Value) (st : EvalSt) : TE (.ok v, st) := fun h => nomatch h

theorem te_rtErr (st : EvalSt) : TE (.rtErr, st) := fun h => nomatch h

theorem te_type_error (st : EvalSt) : TE (type_error st) := fun _ => ⟨st.out, rfl⟩

theorem te_eqResult (vals : List Value) (st1 : EvalSt) : TE (eqResult vals st1) := by
  unfold eqResult
  cases hcn : vals.all check_number with
  | false => exact te_type_error _
  | true =>
    cases vals with
    | nil => exact te_ok _ _
    | cons v0 vs => exact te_ok _ _

theorem te_andThen {r : Outcome × EvalSt} {k : Value → EvalSt → Outcome × EvalSt}
    (h1 : TE r) (h2 : ∀ v st, TE (k v st)) : TE (andThen r k) := by
  obtain ⟨o, st⟩ := r
  cases o with
  | ok v => exact h2 v st
  | typeErr => exact h1
  | rtErr => exact h1
  | fuelOut => exact h1

/-- Whenever any evaluation path returns the type-error outcome, the
output produced so far ends with the single fixed diagnostic line. -/
theorem te_all (fuel : Nat) :
    (∀ e env st, TE (evaluate fuel e env st)) ∧
    (∀ es acc env st, TE (evalAdd fuel es acc env st)) ∧
    (∀ es acc env st, TE (evalMul fuel es acc env st)) ∧
    (∀ es env st, TES (evalSeq fuel es env st)) ∧
    (∀ es env st, TE (evalAnd fuel es env st)) ∧
    (∀ es env st, TE (evalOr fuel es env st)) ∧
    (∀ ps body cenv vals st, TE (applyClosure fuel ps body cenv vals st)) := by
  induction fuel with
  | zero =>
    refine ⟨?_, ?_, ?_, ?_, ?_, ?_, ?_⟩ <;> intros <;> exact fun h => nomatch h
  | succ n ih =>
    obtain ⟨ihE, ihA, ihM, ihS, ihAnd, ihOr, ihC⟩ := ih
    have hbin : ∀ (a b : Expr) (env : Nat) (st : EvalSt)
        (f : Value → Value → EvalSt → Outcome × EvalSt),
        (∀ v1 v2 st2, TE (f v1 v2 st2)) →
        TE (andThen (evaluate n a env st) fun v1 st1 =>
             andThen (evaluate n b env st1) fun v2 st2 => f v1 v2 st2) := by
      intro a b env st f hf
      exact te_andThen (ihE a env st) fun v1 st1 =>
        te_andThen (ihE b env st1) fun v2 st2 => hf v1 v2 st2
    refine ⟨?_, ?_, ?_, ?_, ?_, ?_, ?_⟩
    · intro e env st
      cases e with
      | intLit k => exact te_ok _ _
      | boolLit b => exact te_ok _ _
      | var x =>
        show TE (match lookupEnv st.store st.store.length env x with
          | some v => (.ok v, st) | none => (.rtErr, st))
        split
        · exact te_ok _ _
        · exact te_rtErr _
      | printNum e1 =>
        refine te_andThen (ihE e1 env st) fun v st1 => ?_
        cases v with
        | int k => exact te_ok _ _
        | bool b => exact te_type_error _
        | closure a b c => exact te_type_error _
      | printBool e1 =>
        refine te_andThen (ihE e1 env st) fun v st1 => ?_
        cases v with
        | bool b => exact te_ok _ _
        | int k => exact te_type_error _
        | closure a b c => exact te_type_error _
      | define x e1 =>
        refine te_andThen (ihE e1 env st) fun v st1 => ?_
        show TE (match storeDefine st1.store env x v with
          | some s => (.ok v, ⟨s, st1.out⟩) | none => (.rtErr, st1))
        split
        · exact te_ok _ _
        · exact te_rtErr _
      | fn ps body => exact te_ok _ _
      | funBody defs res =>
        show TE (match evalSeq n defs env st with
          | (Sum.inr _, st1) => evaluate n res env st1
          | (Sum.inl o, st1) => (o, st1))
        split
        · exact ihE _ _ _
        · rename_i o st1 heq
          intro h
          have hs := ihS defs env st
          rw [heq] at hs
          exact hs (congrArg Sum.inl h)
      | ite t thn els =>
        refine te_andThen (ihE t env st) fun v st1 => ?_
        cases v with
        | bool bv => exact ihE _ _ _
        | int k => exact te_type_error _
        | closure a b c => exact te_type_error _
      | add es => exact ihA es 0 env st
      | mul es => exact ihM es 1 env st
      | sub a b =>
        refine hbin a b env st _ fun v1 v2 st2 => ?_
        cases v1 <;> cases v2 <;> first | exact te_ok _ _ | exact te_type_error _
      | div a b =>
        refine hbin a b env st _ fun v1 v2 st2 => ?_
        cases v1 <;> cases v2 <;>
          first
          | exact te_type_error _
          | · rename_i m k
              show TE (if k == 0 then (.rtErr, st2) else (.ok (.int (Int.fdiv m k)), st2))
              split
              · exact te_rtErr _
              · exact te_ok _ _
      | mod a b =>
        refine hbin a b env st _ fun v1 v2 st2 => ?_
        cases v1 <;> cases v2 <;>
          first
          | exact te_type_error _
          | · rename_i m k
              show TE (if k == 0 then (.rtErr, st2) else (.ok (.int (Int.fmod m k)), st2))
              split
              · exact te_rtErr _
              · exact te_ok _ _
      | gt a b =>
        refine hbin a b env st _ fun v1 v2 st2 => ?_
        cases v1 <;> cases v2 <;> first | exact te_ok _ _ | exact te_type_error _
      | lt a b =>
        refine hbin a b env st _ fun v1 v2 st2 => ?_
        cases v1 <;> cases v2 <;> first | exact te_ok _ _ | exact te_type_error _
      | eq es =>
        show TE (match evalSeq n es env st with
          | (Sum.inr vals, st1) => eqResult vals st1
          | (Sum.inl o, st1) => (o, st1))
        split
        · exact te_eqResult _ _
        · rename_i o st1 heq
          intro h
          have hs := ihS es env st
          rw [heq] at hs
          exact hs (congrArg Sum.inl h)
      | and es => exact ihAnd es env st
      | or es => exact ihOr es env st
      | not e1 =>
        refine te_andThen (ihE e1 env st) fun v st1 => ?_
        cases v with
        | bool b => exact te_ok _ _
        | int k => exact te_type_error _
        | closure a b c => exact te_type_error _
      | call fe args =>
        refine te_andThen (ihE fe env st) fun v st1 => ?_
        cases v with
        | int k => exact te_rtErr _
        | bool b => exact te_rtErr _
        | closure ps body cenv =>
          show TE (match evalSeq n args env st1 with
            | (Sum.inr vals, st2) => applyClosure n ps body cenv vals st2
            | (Sum.inl o, st2) => (o, st2))
          split
          · exact ihC _ _ _ _ _
          · rename_i o st2 heq
            intro h
            have hs := ihS args env st1
            rw [heq] at hs
            exact hs (congrArg Sum.inl h)
    · intro es acc env st
      cases es with
      | nil => exact te_ok _ _
      | cons e es =>
        show TE (match evaluate n e env st with
          | (.ok (.int k), st1) => evalAdd n es (acc + k) env st1
          | (.ok _, st1) => type_error st1
          | r => r)
        have he := ihE e env st
        rcases he2 : evaluate n e env st with ⟨o, st1⟩
        rw [he2] at he
        cases o with
        | ok v =>
          cases v with
          | int k => exact ihA _ _ _ _
          | bool b => exact te_type_error _
          | closure a b c => exact te_type_error _
        | typeErr => exact he
        | rtErr => exact te_rtErr _
        | fuelOut => exact fun h => nomatch h
    · intro es acc env st
      cases es with
      | nil => exact te_ok _ _
      | cons e es =>
        show TE (match evaluate n e env st with
          | (.ok (.int k), st1) => evalMul n es (acc * k) env st1
          | (.ok _, st1) => type_error st1
          | r => r)
        have he := ihE e env st
        rcases he2 : evaluate n e env st with ⟨o, st1⟩
        rw [he2] at he
        cases o with
        | ok v =>
          cases v with
          | int k => exact ihM _ _ _ _
          | bool b => exact te_type_error _
          | closure a b c => exact te_type_error _
        | typeErr => exact he
        | rtErr => exact te_rtErr _
        | fuelOut => exact fun h => nomatch h
    · intro es env st
      cases es with
      | nil => exact fun h => nomatch h
      | cons e es =>
        show TES (match evaluate n e env st with
          | (.ok v, st1) =>
            match evalSeq n es env st1 with
            | (Sum.inr vs, st2) => (Sum.inr (v :: vs), st2)
            | r => r
          | (o, st1) => (Sum.inl o, st1))
        have he := ihE e env st
        rcases he2 : evaluate n e env st with ⟨o, st1⟩
        rw [he2] at he
        cases o with
        | ok v =>
          show TES (match evalSeq n es env st1 with
            | (Sum.inr vs, st2) => (Sum.inr (v :: vs), st2)
            | r => r)
          have hs := ihS es env st1
          rcases hs2 : evalSeq n es env st1 with ⟨r2, st2⟩
          rw [hs2] at hs
          cases r2 with
          | inl o2 => exact hs
          | inr vs => exact fun h => nomatch h
        | typeErr => exact fun _ => he rfl
        | rtErr => exact fun h => nomatch h
        | fuelOut => exact fun h => nomatch h
    · intro es env st
      cases es with
      | nil => exact te_ok _ _
      | cons e es =>
        show TE (match evaluate n e env st with
          | (.ok (.bool false), st1) => (.ok (.bool false), st1)
          | (.ok (.bool true), st1) => evalAnd n es env st1
          | (.ok _, st1) => type_error st1
          | r => r)
        have he := ihE e env st
        rcases he2 : evaluate n e env st with ⟨o, st1⟩
        rw [he2] at he
        cases o with
        | ok v =>
          cases v with
          | bool b =>
            cases b with
            | false => exact te_ok _ _
            | true => exact ihAnd _ _ _
          | int k => exact te_type_error _
          | closure a b c => exact te_type_error _
        | typeErr => exact he
        | rtErr => exact te_rtErr _
        | fuelOut => exact fun h => nomatch h
    · intro es env st
      cases es with
      | nil => exact te_ok _ _
      | cons e es =>
        show TE (match evaluate n e env st with
          | (.ok (.bool true), st1) => (.ok (.bool true), st1)
          | (.ok (.bool false), st1) => evalOr n es env st1
          | (.ok _, st1) => type_error st1
          | r => r)
        have he := ihE e env st
        rcases he2 : evaluate n e env st with ⟨o, st1⟩
        rw [he2] at he
        cases o with
        | ok v =>
          cases v with
          | bool b =>
            cases b with
            | true => exact te_ok _ _
            | false => exact ihOr _ _ _
          | int k => exact te_type_error _
          | closure a b c => exact te_type_error _
        | typeErr => exact he
        | rtErr => exact te_rtErr _
        | fuelOut => exact fun h => nomatch h
    · intro ps body cenv vals st
      show TE (if vals.length ≠ ps.length then (.rtErr, st)
        else
          match bindParams (st.store ++ [⟨[], some cenv⟩]) st.store.length ps vals with
          | some s2 => evaluate n body st.store.length ⟨s2, st.out⟩
          | none => (.rtErr, st))
      split
      · exact te_rtErr _
      · split
        · exact ihE _ _ _
        · exact te_rtErr _

/-! ## Print-free invariants of the store -/

theorem storeNP_get {s : Store} {i : Nat} {f : Environment}
    (h1 : storeNP s = true) (h2 : s.get? i = some f) : frameNP f = true := by
  induction s generalizing i with
  | nil => cases h2
  | cons g s ih =>
    simp only [storeNP, List.all_cons, Bool.and_eq_true] at h1
    cases i with
    | zero =>
      injection h2 with h3
      rw [← h3]
      exact h1.1
    | succ j => exact ih h1.2 h2

theorem storeNP_set {s : Store} {i : Nat} {f : Environment}
    (h1 : storeNP s = true) (hf : frameNP f = true) : storeNP (s.set i f) = true := by
  induction s generalizing i with
  | nil => exact h1
  | cons g s ih =>
    simp only [storeNP, List.all_cons, Bool.and_eq_true] at h1
    cases i with
    | zero =>
      simp only [List.set, storeNP, List.all_cons, Bool.and_eq_true]
      exact ⟨hf, h1.2⟩
    | succ j =>
      simp only [List.set, storeNP, List.all_cons, Bool.and_eq_true]
      exact ⟨h1.1, ih h1.2⟩

theorem storeNP_append {s : Store} {f : Environment}
    (h1 : storeNP s = true) (hf : frameNP f = true) : storeNP (s ++ [f]) = true := by
  simp only [storeNP, List.all_append, List.all_cons, List.all_nil, Bool.and_eq_true]
  exact ⟨h1, hf, trivial⟩

theorem frameNP_define {f : Environment} {n : String} {v : Value} {f' : Environment}
    (h1 : frameNP f = true) (hv : valueNP v = true)
    (h : f.define n v = some f') : frameNP f' = true := by
  unfold Environment.define at h
  split at h
  · cases h
  · injection h with h2
    rw [← h2]
    simp only [frameNP, List.all_append, List.all_cons, List.all_nil, Bool.and_eq_true]
    exact ⟨h1, hv, trivial⟩

theorem storeNP_define {s : Store} {env : Nat} {n : String} {v : Value} {s' : Store}
    (h1 : storeNP s = true) (hv : valueNP v = true)
    (h : storeDefine s env n v = some s') : storeNP s' = true := by
  unfold storeDefine at h
  rcases hg : s.get? env with _ | f
  · simp only [hg] at h
    cases h
  · simp only [hg] at h
    rcases hd : f.define n v with _ | f'
    · simp only [hd] at h
      cases h
    · simp only [hd] at h
      injection h with h2
      rw [← h2]
      exact storeNP_set h1 (frameNP_define (storeNP_get h1 hg) hv hd)

theorem bindParams_NP {ps : List String} {vals : List Value} {s : Store}
    {env : Nat} {s' : Store}
    (h1 : storeNP s = true) (hv : vals.all valueNP = true)
    (h : bindParams s env ps vals = some s') : storeNP s' = true := by
  induction ps generalizing vals s with
  | nil =>
    cases vals with
    | nil =>
      injection h with h2
      rw [← h2]
      exact h1
    | cons v vs => cases h
  | cons p ps ih =>
    cases vals with
    | nil => cases h
    | cons v vs =>
      simp only [bindParams] at h
      rcases hd : storeDefine s env p v with _ | s2
      · simp only [hd] at h
        cases h
      · simp only [hd] at h
        simp only [List.all_cons, Bool.and_eq_true] at hv
        exact ih (storeNP_define h1 hv.1 hd) hv.2 h

theorem lookupEnv_NP {s : Store} {fuel env : Nat} {x : String} {v : Value}
    (h1 : storeNP s = true) (h : lookupEnv s fuel env x = some v) :
    valueNP v = true := by
  induction fuel generalizing env with
  | zero => cases h
  | succ n ih =>
    simp only [lookupEnv] at h
    rcases hg : s.get? env with _ | f
    · simp only [hg] at h
      cases h
    · simp only [hg] at h
      rcases hf : f.vars.find? (fun p => p.1 == x) with _ | p
      · simp only [hf] at h
        rcases hp : f.parent with _ | par
        · simp only [hp] at h
          cases h
        · simp only [hp] at h
          exact ih h
      · simp only [hf] at h
        injection h with h2
        rw [← h2]
        have hm := List.mem_of_find?_eq_some hf
        have hfr := storeNP_get h1 hg
        simp only [frameNP, List.all_eq_true] at hfr
        exact hfr p hm

theorem npres_congr {st st' : EvalSt} {r : Outcome × EvalSt}
    (hout : st'.out = st.out) (h : NPres st' r) : NPres st r := by
  obtain ⟨o, st2⟩ := r
  obtain ⟨h1, h2⟩ := h
  refine ⟨h1, ?_⟩
  cases o with
  | ok v => exact ⟨h2.1, by rw [h2.2, hout]⟩
  | typeErr => rw [h2, hout]
  | rtErr => rw [h2, hout]
  | fuelOut => rw [h2, hout]

theorem npres_type_error {st : EvalSt} (h : storeNP st.store = true) :
    NPres st (type_error st) := ⟨h, rfl⟩

theorem npres_eqResult {st1 : EvalSt} (vals : List Value)
    (hs1 : storeNP st1.store = true) : NPres st1 (eqResult vals st1) := by
  unfold eqResult
  cases hcn : vals.all check_number with
  | false => exact npres_type_error hs1
  | true =>
    cases vals with
    | nil => exact ⟨hs1, rfl, rfl⟩
    | cons v0 vs => exact ⟨hs1, rfl, rfl⟩

theorem npres_andThen {st : EvalSt} {r : Outcome × EvalSt}
    {k : Value → EvalSt → Outcome × EvalSt}
    (h : NPres st r)
    (hk : ∀ v st1, valueNP v = true → storeNP st1.store = true →
      st1.out = st.out → NPres st1 (k v st1)) : NPres st (andThen r k) := by
  obtain ⟨o, st2⟩ := r
  cases o with
  | ok v =>
    obtain ⟨h1, h2, h3⟩ := h
    exact npres_congr h3 (hk v st2 h2 h1 h3)
  | typeErr => exact h
  | rtErr => exact h
  | fuelOut => exact h

/-- Evaluating print-free expressions never prints (except for the single
`type_error` diagnostic), keeps the store print-free, and yields
print-free values. -/
theorem np_all (fuel : Nat) :
    (∀ e env st, noPrint e = true → storeNP st.store = true →
      NPres st (evaluate fuel e env st)) ∧
    (∀ es acc env st, noPrintList es = true → storeNP st.store = true →
      NPres st (evalAdd fuel es acc env st)) ∧
    (∀ es acc env st, noPrintList es = true → storeNP st.store = true →
      NPres st (evalMul fuel es acc env st)) ∧
    (∀ es env st, noPrintList es = true → storeNP st.store = true →
      NPseq st (evalSeq fuel es env st)) ∧
    (∀ es env st, noPrintList es = true → storeNP st.store = true →
      NPres st (evalAnd fuel es env st)) ∧
    (∀ es env st, noPrintList es = true → storeNP st.store = true →
      NPres st (evalOr fuel es env st)) ∧
    (∀ ps body cenv vals st, noPrint body = true → vals.all valueNP = true →
      storeNP st.store = true → NPres st (applyClosure fuel ps body cenv vals st)) := by
  induction fuel with
  | zero =>
    refine ⟨?_, ?_, ?_, ?_, ?_, ?_, ?_⟩
    · exact fun e env st _ hst => ⟨hst, rfl⟩
    · exact fun es acc env st _ hst => ⟨hst, rfl⟩
    · exact fun es acc env st _ hst => ⟨hst, rfl⟩
    · exact fun es env st _ hst => ⟨hst, rfl⟩
    · exact fun es env st _ hst => ⟨hst, rfl⟩
    · exact fun es env st _ hst => ⟨hst, rfl⟩
    · exact fun ps body cenv vals st _ _ hst => ⟨hst, rfl⟩
  | succ n ih =>
    obtain ⟨ihE, ihA, ihM, ihS, ihAnd, ihOr, ihC⟩ := ih
    have hbin : ∀ (a b : Expr) (env : Nat) (st : EvalSt)
        (f : Value → Value → EvalSt → Outcome × EvalSt),
        noPrint a = true → noPrint b = true → storeNP st.store = true →
        (∀ v1 v2 st2, valueNP v1 = true → valueNP v2 = true →
          storeNP st2.store = true → NPres st2 (f v1 v2 st2)) →
        NPres st (andThen (evaluate n a env st) fun v1 st1 =>
          andThen (evaluate n b env st1) fun v2 st2 => f v1 v2 st2) := by
      intro a b env st f ha hb hst hf
      refine npres_andThen (ihE a env st ha hst) ?_
      intro v1 st1 hv1 hs1 _
      refine npres_andThen (ihE b env st1 hb hs1) ?_
      intro v2 st2 hv2 hs2 _
      exact hf v1 v2 st2 hv1 hv2 hs2
    refine ⟨?_, ?_, ?_, ?_, ?_, ?_, ?_⟩
    · intro e env st hnp hst
      cases e with
      | intLit k => exact ⟨hst, rfl, rfl⟩
      | boolLit b => exact ⟨hst, rfl, rfl⟩
      | var x =>
        show NPres st (match lookupEnv st.store st.store.length env x with
          | some v => (.ok v, st) | none => (.rtErr, st))
        rcases hL : lookupEnv st.store st.store.length env x with _ | v
        · exact ⟨hst, rfl⟩
        · exact ⟨hst, lookupEnv_NP hst hL, rfl⟩
      | printNum e1 =>
        simp only [noPrint] at hnp
        cases hnp
      | printBool e1 =>
        simp only [noPrint] at hnp
        cases hnp
      | define x e1 =>
        simp only [noPrint] at hnp
        refine npres_andThen (ihE e1 env st hnp hst) ?_
        intro v st1 hv hs1 _
        show NPres st1 (match storeDefine st1.store env x v with
          | some s => (.ok v, ⟨s, st1.out⟩) | none => (.rtErr, st1))
        rcases hd : storeDefine st1.store env x v with _ | s2
        · exact ⟨hs1, rfl⟩
        · exact ⟨storeNP_define hs1 hv hd, hv, rfl⟩
      | fn ps body =>
        simp only [noPrint] at hnp
        exact ⟨hst, hnp, rfl⟩
      | funBody defs res =>
        simp only [noPrint, Bool.and_eq_true] at hnp
        show NPres st (match evalSeq n defs env st with
          | (Sum.inr _, st1) => evaluate n res env st1
          | (Sum.inl o, st1) => (o, st1))
        have hs := ihS defs env st hnp.1 hst
        rcases h2 : evalSeq n defs env st with ⟨r2, st1⟩
        rw [h2] at hs
        cases r2 with
        | inr vs =>
          obtain ⟨hs1, _, hs3⟩ := hs
          exact npres_congr hs3 (ihE res env st1 hnp.2 hs1)
        | inl o =>
          obtain ⟨hs1, hs2⟩ := hs
          cases o with
          | ok v => exact hs2.elim
          | typeErr => exact ⟨hs1, hs2⟩
          | rtErr => exact ⟨hs1, hs2⟩
          | fuelOut => exact ⟨hs1, hs2⟩
      | ite t thn els =>
        simp only [noPrint, Bool.and_eq_true] at hnp
        refine npres_andThen (ihE t env st hnp.1.1 hst) ?_
        intro v st1 hv hs1 _
        cases v with
        | bool bv =>
          cases bv with
          | true => exact ihE thn env st1 hnp.1.2 hs1
          | false => exact ihE els env st1 hnp.2 hs1
        | int k => exact npres_type_error hs1
        | closure a b c => exact npres_type_error hs1
      | add es =>
        simp only [noPrint] at hnp
        exact ihA es 0 env st hnp hst
      | mul es =>
        simp only [noPrint] at hnp
        exact ihM es 1 env st hnp hst
      | sub a b =>
        simp only [noPrint, Bool.and_eq_true] at hnp
        refine hbin a b env st _ hnp.1 hnp.2 hst ?_
        intro v1 v2 st2 hv1 hv2 hs2
        cases v1 <;> cases v2 <;>
          first
          | exact ⟨hs2, rfl, rfl⟩
          | exact npres_type_error hs2
      | div a b =>
        simp only [noPrint, Bool.and_eq_true] at hnp
        refine hbin a b env st _ hnp.1 hnp.2 hst ?_
        intro v1 v2 st2 hv1 hv2 hs2
        cases v1 with
        | int m =>
          cases v2 with
          | int k =>
            show NPres st2 (if k == 0 then (.rtErr, st2)
              else (.ok (.int (Int.fdiv m k)), st2))
            split
            · exact ⟨hs2, rfl⟩
            · exact ⟨hs2, rfl, rfl⟩
          | bool b2 => exact npres_type_error hs2
          | closure a2 b2 c2 => exact npres_type_error hs2
        | bool b1 => exact npres_type_error hs2
        | closure a1 b1 c1 => exact npres_type_error hs2
      | mod a b =>
        simp only [noPrint, Bool.and_eq_true] at hnp
        refine hbin a b env st _ hnp.1 hnp.2 hst ?_
        intro v1 v2 st2 hv1 hv2 hs2
        cases v1 with
        | int m =>
          cases v2 with
          | int k =>
            show NPres st2 (if k == 0 then (.rtErr, st2)
              else (.ok (.int (Int.fmod m k)), st2))
            split
            · exact ⟨hs2, rfl⟩
            · exact ⟨hs2, rfl, rfl⟩
          | bool b2 => exact npres_type_error hs2
          | closure a2 b2 c2 => exact npres_type_error hs2
        | bool b1 => exact npres_type_error hs2
        | closure a1 b1 c1 => exact npres_type_error hs2
      | gt a b =>
        simp only [noPrint, Bool.and_eq_true] at hnp
        refine hbin a b env st _ hnp.1 hnp.2 hst ?_
        intro v1 v2 st2 hv1 hv2 hs2
        cases v1 <;> cases v2 <;>
          first
          | exact ⟨hs2, rfl, rfl⟩
          | exact npres_type_error hs2
      | lt a b =>
        simp only [noPrint, Bool.and_eq_true] at hnp
        refine hbin a b env st _ hnp.1 hnp.2 hst ?_
        intro v1 v2 st2 hv1 hv2 hs2
        cases v1 <;> cases v2 <;>
          first
          | exact ⟨hs2, rfl, rfl⟩
          | exact npres_type_error hs2
      | eq es =>
        simp only [noPrint] at hnp
        show NPres st (match evalSeq n es env st with
          | (Sum.inr vals, st1) => eqResult vals st1
          | (Sum.inl o, st1) => (o, st1))
        have hs := ihS es env st hnp hst
        rcases h2 : evalSeq n es env st with ⟨r2, st1⟩
        rw [h2] at hs
        cases r2 with
        | inr vals =>
          obtain ⟨hs1, _, hs3⟩ := hs
          exact npres_congr hs3 (npres_eqResult vals hs1)
        | inl o =>
          obtain ⟨hs1, hs2⟩ := hs
          cases o with
          | ok v => exact hs2.elim
          | typeErr => exact ⟨hs1, hs2⟩
          | rtErr => exact ⟨hs1, hs2⟩
          | fuelOut => exact ⟨hs1, hs2⟩
      | and es =>
        simp only [noPrint] at hnp
        exact ihAnd es env st hnp hst
      | or es =>
        simp only [noPrint] at hnp
        exact ihOr es env st hnp hst
      | not e1 =>
        simp only [noPrint] at hnp
        refine npres_andThen (ihE e1 env st hnp hst) ?_
        intro v st1 hv hs1 _
        cases v with
        | bool b => exact ⟨hs1, rfl, rfl⟩
        | int k => exact npres_type_error hs1
        | closure a b c => exact npres_type_error hs1
      | call fe args =>
        simp only [noPrint, Bool.and_eq_true] at hnp
        refine npres_andThen (ihE fe env st hnp.1 hst) ?_
        intro v st1 hv hs1 _
        cases v with
        | int k => exact ⟨hs1, rfl⟩
        | bool b => exact ⟨hs1, rfl⟩
        | closure ps body cenv =>
          show NPres st1 (match evalSeq n args env st1 with
            | (Sum.inr vals, st2) => applyClosure n ps body cenv vals st2
            | (Sum.inl o, st2) => (o, st2))
          have hs := ihS args env st1 hnp.2 hs1
          rcases h2 : evalSeq n args env st1 with ⟨r2, st2⟩
          rw [h2] at hs
          cases r2 with
          | inr vals =>
            obtain ⟨hs2, hvv, hs3⟩ := hs
            exact npres_congr hs3 (ihC ps body cenv vals st2 hv hvv hs2)
          | inl o =>
            obtain ⟨hs2, hs3⟩ := hs
            cases o with
            | ok v2 => exact hs3.elim
            | typeErr => exact ⟨hs2, hs3⟩
            | rtErr => exact ⟨hs2, hs3⟩
            | fuelOut => exact ⟨hs2, hs3⟩
    · intro es acc env st hnp hst
      cases es with
      | nil => exact ⟨hst, rfl, rfl⟩
      | cons e es =>
        simp only [noPrintList, Bool.and_eq_true] at hnp
        show NPres st (match evaluate n e env st with
          | (.ok (.int k), st1) => evalAdd n es (acc + k) env st1
          | (.ok _, st1) => type_error st1
          | r => r)
        have he := ihE e env st hnp.1 hst
        rcases h2 : evaluate n e env st with ⟨o, st1⟩
        rw [h2] at he
        cases o with
        | ok v =>
          obtain ⟨hs1, hv, ho1⟩ := he
          cases v with
          | int k => exact npres_congr ho1 (ihA es (acc + k) env st1 hnp.2 hs1)
          | bool b => exact npres_congr ho1 (npres_type_error hs1)
          | closure a b c => exact npres_congr ho1 (npres_type_error hs1)
        | typeErr => exact he
        | rtErr => exact he
        | fuelOut => exact he
    · intro es acc env st hnp hst
      cases es with
      | nil => exact ⟨hst, rfl, rfl⟩
      | cons e es =>
        simp only [noPrintList, Bool.and_eq_true] at hnp
        show NPres st (match evaluate n e env st with
          | (.ok (.int k), st1) => evalMul n es (acc * k) env st1
          | (.ok _, st1) => type_error st1
          | r => r)
        have he := ihE e env st hnp.1 hst
        rcases h2 : evaluate n e env st with ⟨o, st1⟩
        rw [h2] at he
        cases o with
        | ok v =>
          obtain ⟨hs1, hv, ho1⟩ := he
          cases v with
          | int k => exact npres_congr ho1 (ihM es (acc * k) env st1 hnp.2 hs1)
          | bool b => exact npres_congr ho1 (npres_type_error hs1)
          | closure a b c => exact npres_congr ho1 (npres_type_error hs1)
        | typeErr => exact he
        | rtErr => exact he
        | fuelOut => exact he
    · intro es env st hnp hst
      cases es with
      | nil => exact ⟨hst, rfl, rfl⟩
      | cons e es =>
        simp only [noPrintList, Bool.and_eq_true] at hnp
        show NPseq st (match evaluate n e env st with
          | (.ok v, st1) =>
            match evalSeq n es env st1 with
            | (Sum.inr vs, st2) => (Sum.inr (v :: vs), st2)
            | r => r
          | (o, st1) => (Sum.inl o, st1))
        have he := ihE e env st hnp.1 hst
        rcases h2 : evaluate n e env st with ⟨o, st1⟩
        rw [h2] at he
        cases o with
        | ok v =>
          obtain ⟨hs1, hv, ho1⟩ := he
          show NPseq st (match evalSeq n es env st1 with
            | (Sum.inr vs, st2) => (Sum.inr (v :: vs), st2)
            | r => r)
          have hs := ihS es env st1 hnp.2 hs1
          rcases h3 : evalSeq n es env st1 with ⟨r2, st2⟩
          rw [h3] at hs
          cases r2 with
          | inr vs =>
            obtain ⟨hs2, hall, hs3⟩ := hs
            refine ⟨hs2, ?_, by rw [hs3, ho1]⟩
            simp only [List.all_cons, Bool.and_eq_true]
            exact ⟨hv, hall⟩
          | inl o2 =>
            obtain ⟨hs2, hs3⟩ := hs
            cases o2 with
            | ok v2 => exact hs3.elim
            | typeErr => exact ⟨hs2, by rw [hs3, ho1]⟩
            | rtErr => exact ⟨hs2, by rw [hs3, ho1]⟩
            | fuelOut => exact ⟨hs2, by rw [hs3, ho1]⟩
        | typeErr => exact ⟨he.1, he.2⟩
        | rtErr => exact ⟨he.1, he.2⟩
        | fuelOut => exact ⟨he.1, he.2⟩
    · intro es env st hnp hst
      cases es with
      | nil => exact ⟨hst, rfl, rfl⟩
      | cons e es =>
        simp only [noPrintList, Bool.and_eq_true] at hnp
        show NPres st (match evaluate n e env st with
          | (.ok (.bool false), st1) => (.ok (.bool false), st1)
          | (.ok (.bool true), st1) => evalAnd n es env st1
          | (.ok _, st1) => type_error st1
          | r => r)
        have he := ihE e env st hnp.1 hst
        rcases h2 : evaluate n e env st with ⟨o, st1⟩
        rw [h2] at he
        cases o with
        | ok v =>
          obtain ⟨hs1, hv, ho1⟩ := he
          cases v with
          | bool b =>
            cases b with
            | false => exact ⟨hs1, rfl, ho1⟩
            | true => exact npres_congr ho1 (ihAnd es env st1 hnp.2 hs1)
          | int k => exact npres_congr ho1 (npres_type_error hs1)
          | closure a b c => exact npres_congr ho1 (npres_type_error hs1)
        | typeErr => exact he
        | rtErr => exact he
        | fuelOut => exact he
    · intro es env st hnp hst
      cases es with
      | nil => exact ⟨hst, rfl, rfl⟩
      | cons e es =>
        simp only [noPrintList, Bool.and_eq_true] at hnp
        show NPres st (match evaluate n e env st with
          | (.ok (.bool true), st1) => (.ok (.bool true), st1)
          | (.ok (.bool false), st1) => evalOr n es env st1
          | (.ok _, st1) => type_error st1
          | r => r)
        have he := ihE e env st hnp.1 hst
        rcases h2 : evaluate n e env st with ⟨o, st1⟩
        rw [h2] at he
        cases o with
        | ok v =>
          obtain ⟨hs1, hv, ho1⟩ := he
          cases v with
          | bool b =>
            cases b with
            | true => exact ⟨hs1, rfl, ho1⟩
            | false => exact npres_congr ho1 (ihOr es env st1 hnp.2 hs1)
          | int k => exact npres_congr ho1 (npres_type_error hs1)
          | closure a b c => exact npres_congr ho1 (npres_type_error hs1)
        | typeErr => exact he
        | rtErr => exact he
        | fuelOut => exact he
    · intro ps body cenv vals st hb hvals hst
      show NPres st (if vals.length ≠ ps.length then (.rtErr, st)
        else
          match bindParams (st.store ++ [⟨[], some cenv⟩]) st.store.length ps vals with
          | some s2 => evaluate n body st.store.length ⟨s2, st.out⟩
          | none => (.rtErr, st))
      split
      · exact ⟨hst, rfl⟩
      · have hap : storeNP (st.store ++ [⟨[], some cenv⟩]) = true :=
          storeNP_append hst rfl
        rcases hbp : bindParams (st.store ++ [⟨[], some cenv⟩])
            st.store.length ps vals with _ | s2
        · rw [hbp]
          exact ⟨hst, rfl⟩
        · rw [hbp]
          exact npres_congr rfl
            (ihE body st.store.length ⟨s2, st.out⟩ hb (bindParams_NP hap hvals hbp))

/-! ## Auxiliary store lemmas -/

theorem get?_set_self {s : Store} {i : Nat} {f g : Environment}
    (h : s.get? i = some f) : (s.set i g).get? i = some g := by
  induction s generalizing i with
  | nil => cases h
  | cons a s ih =>
    cases i with
    | zero => rfl
    | succ j => exact ih h

theorem get?_set_other {s : Store} {i j : Nat} {g : Environment} (h : i ≠ j) :
    (s.set i g).get? j = s.get? j := by
  induction s generalizing i j with
  | nil => rfl
  | cons a s ih =>
    cases i with
    | zero =>
      cases j with
      | zero => exact absurd rfl h
      | succ k => rfl
    | succ i2 =>
      cases j with
      | zero => rfl
      | succ k => exact ih (fun hc => h (by rw [hc]))

/-- `define` never changes any frame's parent pointer. -/
theorem storeDefine_parent {s : Store} {env : Nat} {x : String} {v : Value}
    {s' : Store} (h : storeDefine s env x v = some s') (i : Nat) :
    (s'.get? i).map Environment.parent = (s.get? i).map Environment.parent := by
  unfold storeDefine at h
  rcases hg : s.get? env with _ | f
  · simp only [hg] at h
    cases h
  · simp only [hg] at h
    rcases hd : f.define x v with _ | f'
    · simp only [hd] at h
      cases h
    · simp only [hd] at h
      injection h with h2
      rw [← h2]
      by_cases hie : env = i
      · subst hie
        rw [get?_set_self hg, hg]
        have hp : f'.parent = f.parent := by
          unfold Environment.define at hd
          split at hd
          · cases hd
          · injection hd with h3
            rw [← h3]
        simp [hp]
      · rw [get?_set_other hie]

/-- Parameter binding never changes any frame's parent pointer. -/
theorem bindParams_parent {ps : List String} {vals : List Value} {s : Store}
    {env : Nat} {s' : Store} (h : bindParams s env ps vals = some s') (i : Nat) :
    (s'.get? i).map Environment.parent = (s.get? i).map Environment.parent := by
  induction ps generalizing vals s with
  | nil =>
    cases vals with
    | nil =>
      injection h with h2
      rw [← h2]
    | cons v vs => cases h
  | cons p ps ih =>
    cases vals with
    | nil => cases h
    | cons v vs =>
      simp only [bindParams] at h
      rcases hd : storeDefine s env p v with _ | s2
      · simp only [hd] at h
        cases h
      · simp only [hd] at h
        rw [ih h, storeDefine_parent hd i]

/-- `runStmts` on a print-free program: either no type violation occurred
and nothing was printed, or it halted on a type violation having printed
exactly the one diagnostic. -/
theorem runStmts_np (fuel : Nat) (prog : List Expr) :
    ∀ env st, noPrintList prog = true → storeNP st.store = true →
      ((runStmts fuel prog env st).1 ≠ .typeHalted ∧
        (runStmts fuel prog env st).2.out = st.out) ∨
      ((runStmts fuel prog env st).1 = .typeHalted ∧
        (runStmts fuel prog env st).2.out = st.out ++ [typeErrorMsg]) := by
  induction prog with
  | nil => exact fun env st _ _ => Or.inl ⟨(fun h => nomatch h), rfl⟩
  | cons e es ih =>
    intro env st hnp hst
    simp only [noPrintList, Bool.and_eq_true] at hnp
    have he := (np_all fuel).1 e env st hnp.1 hst
    have hr : runStmts fuel (e :: es) env st =
        match evaluate fuel e env st with
        | (.ok _, st1) => runStmts fuel es env st1
        | (.typeErr, st1) => (.typeHalted, st1)
        | (_, st1) => (.silentHalted, st1) := rfl
    rw [hr]
    rcases h2 : evaluate fuel e env st with ⟨o, st1⟩
    rw [h2] at he
    cases o with
    | ok v =>
      obtain ⟨hs1, _, ho1⟩ := he
      rcases ih env st1 hnp.2 hs1 with ⟨ha, hb⟩ | ⟨ha, hb⟩
      · exact Or.inl ⟨ha, by rw [hb, ho1]⟩
      · exact Or.inr ⟨ha, by rw [hb, ho1]⟩
    | typeErr => exact Or.inr ⟨rfl, he.2⟩
    | rtErr => exact Or.inl ⟨(fun h => nomatch h), he.2⟩
    | fuelOut => exact Or.inl ⟨(fun h => nomatch h), he.2⟩


/-! ## Claim theorems -/

/-- C1: the spec asserts the lexer terminates on every input with a finite
token sequence.  The code does not: on the two-character input `+a` (an
operator character followed by a character that is neither whitespace, a
parenthesis, nor end of input), the identifier branch takes an empty
alphanumeric run, appends the empty token and never advances, so the scan
loop never finishes no matter how many iterations it is given. -/
theorem tokenize_loops_on_operator_prefix :
    ∀ fuel, tokenizeAux fuel ('+' :: 'a' :: []) = none := by
  intro fuel
  induction fuel with
  | zero => rfl
  | succ n ih =>
    have h : tokenizeAux (n + 1) ('+' :: 'a' :: []) =
        (tokenizeAux n ('+' :: 'a' :: [])).map (fun ts => "" :: ts) := rfl
    rw [h, ih]
    rfl

/-- C2: whenever a type check fails during the evaluation of a statement,
the whole run stops right there — the remaining statements, whatever they
are, are never evaluated — the output ends with the single fixed
diagnostic line, and the process status is the success status 0. -/
theorem type_violation_halts_program (fuel : Nat) (e : Expr) (rest : List Expr)
    (env : Nat) (st st' : EvalSt)
    (h : evaluate fuel e env st = (.typeErr, st')) :
    runStmts fuel (e :: rest) env st = (.typeHalted, st') ∧
    (∃ pre, st'.out = pre ++ [typeErrorMsg]) ∧
    exitCode (runStmts fuel (e :: rest) env st).1 = 0 := by
  have hr : runStmts fuel (e :: rest) env st =
      match evaluate fuel e env st with
      | (.ok _, st1) => runStmts fuel rest env st1
      | (.typeErr, st1) => (.typeHalted, st1)
      | (_, st1) => (.silentHalted, st1) := rfl
  refine ⟨?_, ?_, rfl⟩
  · rw [hr, h]
  · have hte := (te_all fuel).1 e env st
    rw [h] at hte
    exact hte rfl

theorem type_violation_halts_program_witness :
    runStmts 3 [Expr.printNum (.boolLit true), .printNum (.intLit 42)] 0 initState =
      (.typeHalted, ⟨[⟨[], none⟩], [typeErrorMsg]⟩) ∧
    (∃ pre, (⟨[⟨[], none⟩], [typeErrorMsg]⟩ : EvalSt).out = pre ++ [typeErrorMsg]) ∧
    exitCode (runStmts 3 [Expr.printNum (.boolLit true), .printNum (.intLit 42)]
      0 initState).1 = 0 :=
  type_violation_halts_program 3 (.printNum (.boolLit true)) [.printNum (.intLit 42)]
    0 initState ⟨[⟨[], none⟩], [typeErrorMsg]⟩ rfl

/-- C3 (counterexample): the claim says `(/ 7 2)` evaluates to 2, but the
code's floor division gives 3, and 3 is not 2. -/
theorem div_seven_two_counterexample :
    (evaluate 2 (.div (.intLit 7) (.intLit 2)) 0 initState).1 = .ok (.int 3) ∧
    Value.int 3 ≠ Value.int 2 := by
  refine ⟨rfl, fun h => ?_⟩
  injection h with h2
  exact absurd h2 (by decide)

/-- C3 (amended): `(/ 7 2)` evaluates to 3 under the chosen floor
convention, and for all integer operands with a nonzero divisor, `/` is
floor division, `mod` is the matching floor remainder, and
a = (a / b) * b + (a mod b). -/
theorem div_mod_floor_convention (a b : Int) (env : Nat) (st : EvalSt)
    (hb : b ≠ 0) :
    evaluate 2 (.div (.intLit a) (.intLit b)) env st =
      (.ok (.int (Int.fdiv a b)), st) ∧
    evaluate 2 (.mod (.intLit a) (.intLit b)) env st =
      (.ok (.int (Int.fmod a b)), st) ∧
    a = Int.fdiv a b * b + Int.fmod a b ∧
    evaluate 2 (.div (.intLit 7) (.intLit 2)) env st = (.ok (.int 3), st) := by
  have hbeq : (b == 0) = false := by
    rw [beq_eq_false_iff_ne]
    exact hb
  refine ⟨?_, ?_, ?_, rfl⟩
  · show (if b == 0 then ((.rtErr, st) : Outcome × EvalSt)
      else (.ok (.int (Int.fdiv a b)), st)) = (.ok (.int (Int.fdiv a b)), st)
    rw [hbeq]
    rfl
  · show (if b == 0 then ((.rtErr, st) : Outcome × EvalSt)
      else (.ok (.int (Int.fmod a b)), st)) = (.ok (.int (Int.fmod a b)), st)
    rw [hbeq]
    rfl
  · have h2 : Int.fdiv a b * b + Int.fmod a b = a := by
      rw [mul_comm]
      exact Int.fdiv_add_fmod a b
    exact h2.symm

theorem div_mod_floor_convention_witness :
    evaluate 2 (.div (.intLit (-7)) (.intLit 2)) 0 initState =
      (.ok (.int (Int.fdiv (-7) 2)), initState) ∧
    evaluate 2 (.mod (.intLit (-7)) (.intLit 2)) 0 initState =
      (.ok (.int (Int.fmod (-7) 2)), initState) ∧
    (-7 : Int) = Int.fdiv (-7) 2 * 2 + Int.fmod (-7) 2 ∧
    evaluate 2 (.div (.intLit 7) (.intLit 2)) 0 initState =
      (.ok (.int 3), initState) :=
  div_mod_floor_convention (-7) 2 0 initState (by decide)

/-- C4 (counterexample): `(+ 1 #t)` is well formed, contains no print
form, yet the run prints the type-error diagnostic, so its output is not
empty. -/
theorem no_print_claim_counterexample :
    noPrintList addBoolProg = true ∧
    (runProgram 5 addBoolProg).2.out = [typeErrorMsg] ∧
    [typeErrorMsg] ≠ ([] : List String) := by
  refine ⟨rfl, rfl, ?_⟩
  intro h
  cases h

/-- C4 (amended): a well-formed program with no print forms whose run does
not hit a type violation terminates with the success status and empty
output. -/
theorem no_print_no_typeerr_empty_output (fuel : Nat) (prog : List Expr)
    (hnp : noPrintList prog = true)
    (hte : (runProgram fuel prog).1 ≠ .typeHalted) :
    (runProgram fuel prog).2.out = [] ∧ exitCode (runProgram fuel prog).1 = 0 := by
  rcases runStmts_np fuel prog 0 initState hnp rfl with ⟨h1, h2⟩ | ⟨h1, h2⟩
  · exact ⟨h2, rfl⟩
  · exact absurd h1 hte

theorem no_print_no_typeerr_empty_output_witness :
    (runProgram 3 [Expr.define "x" (.intLit 5)]).2.out = [] ∧
    exitCode (runProgram 3 [Expr.define "x" (.intLit 5)]).1 = 0 :=
  no_print_no_typeerr_empty_output 3 [Expr.define "x" (.intLit 5)] rfl (by decide)

/-- C5: `if` evaluates the test and then exactly the selected branch; the
result is that of the chosen branch alone, whatever the other branch is —
in particular `(if #t 1 e2)` evaluates to 1 for every `e2`, including
`(mod 1 0)`. -/
theorem if_evaluates_exactly_one_branch (fuel : Nat) (t thn els : Expr)
    (env : Nat) (st st' : EvalSt) :
    (evaluate fuel t env st = (.ok (.bool true), st') →
      evaluate (fuel + 1) (.ite t thn els) env st = evaluate fuel thn env st') ∧
    (evaluate fuel t env st = (.ok (.bool false), st') →
      evaluate (fuel + 1) (.ite t thn els) env st = evaluate fuel els env st') ∧
    (∀ e2, evaluate 2 (.ite (.boolLit true) (.intLit 1) e2) env st =
      (.ok (.int 1), st)) ∧
    evaluate 2 (.ite (.boolLit true) (.intLit 1) (.mod (.intLit 1) (.intLit 0)))
      env st = (.ok (.int 1), st) := by
  refine ⟨?_, ?_, fun e2 => rfl, rfl⟩
  · intro h
    show andThen (evaluate fuel t env st) (fun v st1 =>
      match v with
      | .bool bv => evaluate fuel (if bv then thn else els) env st1
      | _ => type_error st1) = evaluate fuel thn env st'
    rw [h]
    rfl
  · intro h
    show andThen (evaluate fuel t env st) (fun v st1 =>
      match v with
      | .bool bv => evaluate fuel (if bv then thn else els) env st1
      | _ => type_error st1) = evaluate fuel els env st'
    rw [h]
    rfl

theorem if_evaluates_exactly_one_branch_witness :
    evaluate 3 (.ite (.boolLit true) (.intLit 1) (.mod (.intLit 1) (.intLit 0)))
      0 initState = evaluate 2 (.intLit 1) 0 initState :=
  (if_evaluates_exactly_one_branch 2 (.boolLit true) (.intLit 1)
    (.mod (.intLit 1) (.intLit 0)) 0 initState initState).1 rfl

/-- C6: `and` stops with false at the first false operand and `or` stops
with true at the first true operand, with the remaining operands — and
their type checks — never reached; a reached non-Boolean operand halts the
program with the fixed diagnostic; `(print-bool (and #t #f))` prints `#f`;
`(and #t 5)` halts the whole run with the diagnostic as its only output. -/
theorem and_or_short_circuit (fuel : Nat) (e : Expr) (rest : List Expr)
    (env : Nat) (st st' : EvalSt) :
    (evaluate fuel e env st = (.ok (.bool false), st') →
      evaluate (fuel + 2) (.and (e :: rest)) env st = (.ok (.bool false), st')) ∧
    (∀ k : Int, evaluate fuel e env st = (.ok (.int k), st') →
      evaluate (fuel + 2) (.and (e :: rest)) env st = type_error st') ∧
    (evaluate fuel e env st = (.ok (.bool true), st') →
      evaluate (fuel + 2) (.or (e :: rest)) env st = (.ok (.bool true), st')) ∧
    (∀ k : Int, evaluate fuel e env st = (.ok (.int k), st') →
      evaluate (fuel + 2) (.or (e :: rest)) env st = type_error st') ∧
    runProgram 6 andPrintProg = (.completed, ⟨[⟨[], none⟩], ["#f"]⟩) ∧
    runProgram 6 andTypeErrProg = (.typeHalted, ⟨[⟨[], none⟩], [typeErrorMsg]⟩) := by
  refine ⟨?_, ?_, ?_, ?_, rfl, rfl⟩
  · intro h
    show (match evaluate fuel e env st with
      | (.ok (.bool false), st1) => ((.ok (.bool false), st1) : Outcome × EvalSt)
      | (.ok (.bool true), st1) => evalAnd fuel rest env st1
      | (.ok _, st1) => type_error st1
      | r => r) = (.ok (.bool false), st')
    rw [h]
  · intro k h
    show (match evaluate fuel e env st with
      | (.ok (.bool false), st1) => ((.ok (.bool false), st1) : Outcome × EvalSt)
      | (.ok (.bool true), st1) => evalAnd fuel rest env st1
      | (.ok _, st1) => type_error st1
      | r => r) = type_error st'
    rw [h]
  · intro h
    show (match evaluate fuel e env st with
      | (.ok (.bool true), st1) => ((.ok (.bool true), st1) : Outcome × EvalSt)
      | (.ok (.bool false), st1) => evalOr fuel rest env st1
      | (.ok _, st1) => type_error st1
      | r => r) = (.ok (.bool true), st')
    rw [h]
  · intro k h
    show (match evaluate fuel e env st with
      | (.ok (.bool true), st1) => ((.ok (.bool true), st1) : Outcome × EvalSt)
      | (.ok (.bool false), st1) => evalOr fuel rest env st1
      | (.ok _, st1) => type_error st1
      | r => r) = type_error st'
    rw [h]

theorem and_or_short_circuit_witness :
    evaluate 3 (.and [Expr.boolLit false, .intLit 5]) 0 initState =
      (.ok (.bool false), initState) :=
  (and_or_short_circuit 1 (.boolLit false) [.intLit 5] 0 initState initState).1 rfl

/-- C7: Integer and Boolean are disjoint kinds in every check:
`check_number` rejects every Boolean, `check_boolean` rejects every
Integer, and each integer-expecting operation given a Boolean operand —
and each boolean-expecting operation given an Integer operand — ends in
the type-error exit. -/
theorem int_bool_disjoint_checks (b : Bool) (k : Int) (env : Nat) (st : EvalSt) :
    check_number (.bool b) = false ∧
    check_boolean (.int k) = false ∧
    evaluate 4 (.add [.boolLit b, .intLit 1]) env st = type_error st ∧
    evaluate 4 (.sub (.boolLit b) (.intLit 1)) env st = type_error st ∧
    evaluate 4 (.mul [.boolLit b, .intLit 1]) env st = type_error st ∧
    evaluate 4 (.div (.boolLit b) (.intLit 1)) env st = type_error st ∧
    evaluate 4 (.mod (.boolLit b) (.intLit 1)) env st = type_error st ∧
    evaluate 4 (.gt (.boolLit b) (.intLit 1)) env st = type_error st ∧
    evaluate 4 (.lt (.boolLit b) (.intLit 1)) env st = type_error st ∧
    evaluate 4 (.eq [.boolLit b, .intLit 1]) env st = type_error st ∧
    evaluate 4 (.printNum (.boolLit b)) env st = type_error st ∧
    evaluate 4 (.and [.intLit k, .boolLit true]) env st = type_error st ∧
    evaluate 4 (.or [.intLit k, .boolLit true]) env st = type_error st ∧
    evaluate 4 (.not (.intLit k)) env st = type_error st ∧
    evaluate 4 (.ite (.intLit k) (.intLit 0) (.intLit 0)) env st = type_error st ∧
    evaluate 4 (.printBool (.intLit k)) env st = type_error st :=
  ⟨rfl, rfl, rfl, rfl, rfl, rfl, rfl, rfl, rfl, rfl, rfl, rfl, rfl, rfl, rfl, rfl⟩

/-- C8: evaluating a `fun` literal yields a closure over the environment
active at that moment; invoking a closure runs its body in a fresh frame
whose parent is the closure's captured environment (never the caller's);
`(add1 2)` gives 3; and in `lexicalProg` the closure `f` resolves `y` to
its definition-site binding 1 even though its call site binds `y` to 99. -/
theorem closure_lexical_scoping (fuel : Nat) (ps : List String) (body : Expr)
    (cenv : Nat) (vals : List Value) (env : Nat) (st : EvalSt) (s2 : Store)
    (hlen : vals.length = ps.length)
    (hbind : bindParams (st.store ++ [⟨[], some cenv⟩]) st.store.length ps vals =
      some s2) :
    evaluate (fuel + 1) (.fn ps body) env st = (.ok (.closure ps body env), st) ∧
    applyClosure (fuel + 1) ps body cenv vals st =
      evaluate fuel body st.store.length ⟨s2, st.out⟩ ∧
    (s2.get? st.store.length).map Environment.parent = some (some cenv) ∧
    (runProgram 12 add1Prog).1 = .completed ∧
    (runProgram 12 add1Prog).2.out = ["3"] ∧
    (runProgram 12 lexicalProg).1 = .completed ∧
    (runProgram 12 lexicalProg).2.out = ["1"] := by
  refine ⟨rfl, ?_, ?_, rfl, rfl, rfl, rfl⟩
  · show (if vals.length ≠ ps.length then ((.rtErr, st) : Outcome × EvalSt)
      else match bindParams (st.store ++ [⟨[], some cenv⟩]) st.store.length ps vals with
        | some s3 => evaluate fuel body st.store.length ⟨s3, st.out⟩
        | none => (.rtErr, st)) = evaluate fuel body st.store.length ⟨s2, st.out⟩
    rw [if_neg (not_not_intro hlen), hbind]
  · rw [bindParams_parent hbind st.store.length, List.get?_concat_length]
    rfl

theorem closure_lexical_scoping_witness :
    evaluate 6 (.fn ["x"] (.add [.var "x", .intLit 1])) 0 initState =
      (.ok (.closure ["x"] (.add [.var "x", .intLit 1]) 0), initState) ∧
    applyClosure 6 ["x"] (.add [.var "x", .intLit 1]) 0 [.int 2] initState =
      evaluate 5 (.add [.var "x", .intLit 1]) 1
        ⟨[⟨[], none⟩, ⟨[("x", .int 2)], some 0⟩], []⟩ ∧
    (([⟨[], none⟩, ⟨[("x", .int 2)], some 0⟩] : Store).get? 1).map
      Environment.parent = some (some 0) ∧
    (runProgram 12 add1Prog).1 = .completed ∧
    (runProgram 12 add1Prog).2.out = ["3"] ∧
    (runProgram 12 lexicalProg).1 = .completed ∧
    (runProgram 12 lexicalProg).2.out = ["1"] :=
  closure_lexical_scoping 5 ["x"] (.add [.var "x", .intLit 1]) 0 [.int 2] 0
    initState [⟨[], none⟩, ⟨[("x", .int 2)], some 0⟩] rfl rfl

/-- C9: `define` fails exactly when the name is already bound in the very
frame being defined into — whatever the ancestor frames contain — and the
two-define redefinition program stops silently with no output, with any
later statement never run. -/
theorem define_same_scope_only (s : Store) (env : Nat) (x : String) (v : Value)
    (f : Environment) (hf : s.get? env = some f) :
    (storeDefine s env x v = none ↔ x ∈ f.vars.map Prod.fst) ∧
    runProgram 4 redefineProg = (.silentHalted, ⟨[⟨[("x", .int 5)], none⟩], []⟩) ∧
    runProgram 4 redefineProg3 =
      (.silentHalted, ⟨[⟨[("x", .int 5)], none⟩], []⟩) := by
  refine ⟨?_, rfl, rfl⟩
  have h1 : storeDefine s env x v =
      match f.define x v with
      | none => none
      | some f2 => some (s.set env f2) := by
    unfold storeDefine
    rw [hf]
  have h2 : f.define x v =
      if f.vars.any (fun p => p.1 == x) then none
      else some ⟨f.vars ++ [(x, v)], f.parent⟩ := rfl
  rw [h1, h2]
  cases hany : f.vars.any (fun p => p.1 == x) with
  | true =>
    refine ⟨fun _ => ?_, fun _ => rfl⟩
    rw [List.any_eq_true] at hany
    obtain ⟨p, hp, he⟩ := hany
    rw [beq_iff_eq] at he
    exact List.mem_map.mpr ⟨p, hp, he⟩
  | false =>
    refine ⟨(fun hcon => nomatch hcon), fun hmem => ?_⟩
    exfalso
    obtain ⟨p, hp, he⟩ := List.mem_map.mp hmem
    have hx : f.vars.any (fun q => q.1 == x) = true := by
      rw [List.any_eq_true]
      refine ⟨p, hp, ?_⟩
      rw [beq_iff_eq]
      exact he
    rw [hany] at hx
    cases hx

theorem define_same_scope_only_witness :
    (storeDefine [⟨[("x", Value.int 5)], none⟩] 0 "x" (.int 6) = none ↔
      "x" ∈ ([("x", Value.int 5)] : List (String × Value)).map Prod.fst) ∧
    runProgram 4 redefineProg = (.silentHalted, ⟨[⟨[("x", .int 5)], none⟩], []⟩) ∧
    runProgram 4 redefineProg3 =
      (.silentHalted, ⟨[⟨[("x", .int 5)], none⟩], []⟩) :=
  define_same_scope_only [⟨[("x", Value.int 5)], none⟩] 0 "x" (.int 6)
    ⟨[("x", Value.int 5)], none⟩ rfl

/-- C10: when the callee of a call evaluates to anything other than a
closure, the call fails right after evaluating the callee — the argument
expressions, whatever they are, are never evaluated and none of their
output appears — and the run stops silently. -/
theorem call_non_closure_skips_args (fuel : Nat) (fe : Expr) (args : List Expr)
    (env : Nat) (st st' : EvalSt) (v : Value)
    (h : evaluate fuel fe env st = (.ok v, st'))
    (hv : ∀ ps body cenv, v ≠ .closure ps body cenv) :
    evaluate (fuel + 1) (.call fe args) env st = (.rtErr, st') ∧
    runProgram 4 nonClosureCallProg = (.silentHalted, initState) := by
  refine ⟨?_, rfl⟩
  show andThen (evaluate fuel fe env st) (fun v2 st1 =>
    match v2 with
    | .closure ps body cenv =>
      match evalSeq fuel args env st1 with
      | (Sum.inr vals, st2) => applyClosure fuel ps body cenv vals st2
      | (Sum.inl o, st2) => (o, st2)
    | _ => (.rtErr, st1)) = (.rtErr, st')
  rw [h]
  cases v with
  | int k => rfl
  | bool b => rfl
  | closure ps body cenv => exact absurd rfl (hv ps body cenv)

theorem call_non_closure_skips_args_witness :
    evaluate 4 (.call (.intLit 1) [.printNum (.intLit 99)]) 0 initState =
      (.rtErr, initState) ∧
    runProgram 4 nonClosureCallProg = (.silentHalted, initState) :=
  call_non_closure_skips_args 3 (.intLit 1) [.printNum (.intLit 99)] 0 initState
    initState (.int 1) rfl (fun _ _ _ h => nomatch h)
